import Mathlib

/-
Formal model of the Smart Book Discovery Engine (`DiscoveryService.js`).

The JavaScript service is shallowly embedded as follows:
- JS `Set<string>` values (read-sets) become `Finset String`; where the code
  iterates a set, the model iterates a list of its elements (iteration order
  is irrelevant to every property proved here).
- JS numbers are modelled as exact rationals (`ℚ`); the algorithm divides,
  adds and compares scores, and no property here depends on binary
  floating-point rounding of those operations.
- JS `Map`/object maps become association lists in insertion order, with
  `mapGet`/`mapSet` mirroring `Map.get`/`Map.set`.
- JS `Array.prototype.sort` (a stable sort) is modelled by the stable
  `List.insertionSort`; `localeCompare` on titles and SQL `ORDER BY` on
  identifiers are modelled by the lexicographic order on `String`.
- The MySQL store is modelled by an explicit table state `DB`, and each SQL
  query of the service by a Lean function over `DB` implementing the query's
  relational semantics.
-/

/-- Peers with Jaccard score below this threshold are ignored
(`MIN_SIMILARITY` in the source). -/
def MIN_SIMILARITY : ℚ := 1/10

/-- Maximum number of peer users to consider (`MAX_PEERS` in the source). -/
def MAX_PEERS : ℕ := 50

/-- Maximum number of book recommendations to return
(`MAX_RESULTS` in the source). -/
def MAX_RESULTS : ℕ := 10

/-- Model of `_jaccard(setA, setB)`: if both sets are empty the result is 0;
otherwise the smaller set is iterated counting members of the larger
(the intersection count), and the result is the intersection count divided by
`|A| + |B| - intersectionCount`. -/
def jaccard (setA setB : Finset String) : ℚ :=
  if setA.card = 0 ∧ setB.card = 0 then 0
  else
    let smaller := if setA.card ≤ setB.card then setA else setB
    let larger := if setA.card ≤ setB.card then setB else setA
    let interCount := (smaller.filter (fun x => x ∈ larger)).card
    (interCount : ℚ) / ((setA.card + setB.card - interCount : ℕ) : ℚ)

/-- Both branches of the smaller/larger split compute the cardinality of the
intersection, so `jaccard` has a branch-free closed form. -/
theorem jaccard_eq (A B : Finset String) :
    jaccard A B = if A.card = 0 ∧ B.card = 0 then 0
      else ((A ∩ B).card : ℚ) / ((A.card + B.card - (A ∩ B).card : ℕ) : ℚ) := by
  unfold jaccard
  by_cases h : A.card = 0 ∧ B.card = 0
  · simp [h]
  · simp only [h, if_false]
    by_cases hle : A.card ≤ B.card
    · simp [hle, Finset.filter_mem_eq_inter]
    · simp [hle, Finset.filter_mem_eq_inter, Finset.inter_comm]

/-- C4: `jaccard` is symmetric, always lands in `[0,1]`, is defined (and 0) on
two empty sets, and equals 1 on any non-empty set compared with itself. -/
theorem jaccard_props :
    (∀ A B : Finset String, jaccard A B = jaccard B A) ∧
    (∀ A B : Finset String, 0 ≤ jaccard A B ∧ jaccard A B ≤ 1) ∧
    jaccard (∅ : Finset String) ∅ = 0 ∧
    (∀ A : Finset String, A ≠ ∅ → jaccard A A = 1) := by
  have hinterA : ∀ A B : Finset String, (A ∩ B).card ≤ A.card := fun A B =>
    Finset.card_le_card (Finset.inter_subset_left)
  have hinterB : ∀ A B : Finset String, (A ∩ B).card ≤ B.card := fun A B =>
    Finset.card_le_card (Finset.inter_subset_right)
  refine ⟨?_, ?_, ?_, ?_⟩
  · intro A B
    rw [jaccard_eq, jaccard_eq, Finset.inter_comm B A]
    by_cases h : A.card = 0 ∧ B.card = 0
    · simp [h, h.1, h.2]
    · have h' : ¬ (B.card = 0 ∧ A.card = 0) := fun hc => h ⟨hc.2, hc.1⟩
      simp only [h, h', if_false]
      rw [Nat.add_comm B.card A.card]
  · intro A B
    rw [jaccard_eq]
    by_cases h : A.card = 0 ∧ B.card = 0
    · simp [h]
    · simp only [h, if_false]
      have hi := hinterA A B
      have hj := hinterB A B
      have hcard : ¬ (A.card = 0) ∨ ¬ (B.card = 0) := by
        by_contra hc
        push_neg at hc
        exact h ⟨hc.1, hc.2⟩
      have hupos : 0 < A.card + B.card - (A ∩ B).card := by omega
      have hile : (A ∩ B).card ≤ A.card + B.card - (A ∩ B).card := by omega
      constructor
      · positivity
      · rw [div_le_one (by exact_mod_cast hupos)]
        exact_mod_cast hile
  · simp [jaccard]
  · intro A hA
    have hc : A.card ≠ 0 := by
      simpa [Finset.card_eq_zero] using hA
    rw [jaccard_eq]
    simp only [hc, false_and, if_false, Finset.inter_self]
    have : A.card + A.card - A.card = A.card := by omega
    rw [this, div_self (by exact_mod_cast hc)]

/-- Witness for C4 at a concrete non-empty set. -/
theorem jaccard_props_witness :
    ({"a"} : Finset String) ≠ ∅ ∧ jaccard {"a"} {"a"} = 1 :=
  ⟨by decide, jaccard_props.2.2.2 {"a"} (by decide)⟩

/-- An entry of the scored-peer list produced by `_scorePeers`:
peer identifier, Jaccard score against the target, and the peer's book set. -/
structure PeerScore where
  peerId : String
  score : ℚ
  books : Finset String
deriving DecidableEq

/-- The comparator passed to `scored.sort((a, b) => b.score - a.score)`:
`a` may precede `b` exactly when `a`'s score is at least `b`'s. -/
def peerOrder (a b : PeerScore) : Prop := b.score ≤ a.score

instance : DecidableRel peerOrder := fun a b =>
  inferInstanceAs (Decidable (b.score ≤ a.score))

instance : IsTotal PeerScore peerOrder :=
  ⟨fun a b => (le_total b.score a.score).elim Or.inl Or.inr⟩

instance : IsTrans PeerScore peerOrder :=
  ⟨fun _ _ _ h1 h2 => le_trans h2 h1⟩

/-- Model of `_scorePeers(targetBooks, allUserBooks, minScore)`: score every
peer entry, keep those with `score >= minScore` in iteration order, then sort
descending by score (stably, as `Array.prototype.sort` is stable). -/
def scorePeers (targetBooks : Finset String)
    (allUserBooks : List (String × Finset String)) (minScore : ℚ) :
    List PeerScore :=
  let scored := allUserBooks.filterMap (fun p =>
    let score := jaccard targetBooks p.2
    if minScore ≤ score then some (PeerScore.mk p.1 score p.2) else none)
  List.insertionSort peerOrder scored

/-- The push-loop of `_scorePeers` is the filter of the fully scored list. -/
theorem scorePeers_scored_eq (targetBooks : Finset String)
    (allUserBooks : List (String × Finset String)) (minScore : ℚ) :
    (allUserBooks.filterMap (fun p =>
      let score := jaccard targetBooks p.2
      if minScore ≤ score then some (PeerScore.mk p.1 score p.2) else none)) =
    (allUserBooks.map (fun p => PeerScore.mk p.1 (jaccard targetBooks p.2) p.2)).filter
      (fun x => decide (minScore ≤ x.score)) := by
  induction allUserBooks with
  | nil => rfl
  | cons p rest ih =>
    by_cases h : minScore ≤ jaccard targetBooks p.2 <;>
      simp [List.filterMap_cons, List.filter_cons, h, ih]

/-- C2 (amended): the peer scorer returns exactly the peers whose Jaccard
score against the target is at least `minScore` (as a permutation of the
scored-and-filtered input), the returned list is descending by score
(non-strictly: ties between equal scores are allowed), and in particular no
returned peer scores below `minScore`. -/
theorem scorePeers_spec (targetBooks : Finset String)
    (allUserBooks : List (String × Finset String)) (minScore : ℚ) :
    List.Perm (scorePeers targetBooks allUserBooks minScore)
      ((allUserBooks.map (fun p =>
          PeerScore.mk p.1 (jaccard targetBooks p.2) p.2)).filter
        (fun x => decide (minScore ≤ x.score))) ∧
    (scorePeers targetBooks allUserBooks minScore).Sorted peerOrder ∧
    (∀ x ∈ scorePeers targetBooks allUserBooks minScore, minScore ≤ x.score) := by
  have hperm := List.perm_insertionSort peerOrder
    ((allUserBooks.filterMap (fun p =>
      let score := jaccard targetBooks p.2
      if minScore ≤ score then some (PeerScore.mk p.1 score p.2) else none)))
  refine ⟨?_, ?_, ?_⟩
  · rw [scorePeers, ← scorePeers_scored_eq]
    exact hperm
  · exact List.sorted_insertionSort peerOrder _
  · intro x hx
    rw [scorePeers] at hx
    have hx' := hperm.mem_iff.mp hx
    rw [scorePeers_scored_eq] at hx'
    have := List.of_mem_filter hx'
    simpa using this

/-- C2 (counterexample to the claim as stated): two peers with identical book
sets tie on score, so the returned list is not strictly descending. -/
theorem scorePeers_not_strictly_descending :
    ¬ (scorePeers {"b"} [("P1", {"b"}), ("P2", {"b"})] (1/10)).Pairwise
        (fun a b => b.score < a.score) := by
  have hj : jaccard {"b"} {"b"} = 1 := by
    rw [jaccard_eq]
    norm_num
  have hsc : scorePeers {"b"} [("P1", {"b"}), ("P2", {"b"})] (1/10) =
      [PeerScore.mk "P1" 1 {"b"}, PeerScore.mk "P2" 1 {"b"}] := by
    rw [scorePeers]
    simp only [List.filterMap_cons, List.filterMap_nil, hj]
    norm_num [List.insertionSort, List.orderedInsert, peerOrder]
  rw [hsc]
  simp

/-- A peer as consumed by `_aggregateCandidates`: identifier, similarity
score, and the peer's book set given in its iteration order. -/
structure AggPeer where
  peerId : String
  score : ℚ
  books : List String
deriving DecidableEq

/-- A candidate entry: accumulated weighted score and the contributing peers
in the order they were processed (`{ weightedScore, recommendedBy }`). -/
structure CandEntry where
  weightedScore : ℚ
  recommendedBy : List String
deriving DecidableEq

/-- The JS `Map<string, CandEntry>` is modelled as an association list in key
insertion order. -/
abbrev CandMap := List (String × CandEntry)

/-- Model of `Map.prototype.get`: the value at the first (only) matching key. -/
def mapGet (m : CandMap) (k : String) : Option CandEntry :=
  (m.find? (fun e => decide (e.1 = k))).map (fun e => e.2)

/-- Model of `Map.prototype.set`: replace the value at an existing key in
place, else append the new binding. -/
def mapSet : CandMap → String → CandEntry → CandMap
  | [], k, v => [(k, v)]
  | e :: rest, k, v =>
      if e.1 = k then (k, v) :: rest else e :: mapSet rest k v

/-- The per-book update of `_aggregateCandidates`: the entry (initialised to
`{ weightedScore: 0, recommendedBy: [] }` on first occurrence) has the peer's
score added and the peer's id appended. -/
def bump (peerId : String) (score : ℚ) (o : Option CandEntry) : CandEntry :=
  let entry := o.getD (CandEntry.mk 0 [])
  CandEntry.mk (entry.weightedScore + score) (entry.recommendedBy ++ [peerId])

/-- One iteration of the inner loop of `_aggregateCandidates`: books the
target already read are skipped, every other book gets `bump`ed. -/
def aggStep (targetBooks : Finset String) (peerId : String) (score : ℚ)
    (cands : CandMap) (bookId : String) : CandMap :=
  if bookId ∈ targetBooks then cands
  else mapSet cands bookId (bump peerId score (mapGet cands bookId))

/-- Model of `_aggregateCandidates(peers, targetBooks)`: fold the per-book
update over every book of every peer, peers in input order. -/
def aggregateCandidates (peers : List AggPeer) (targetBooks : Finset String) :
    CandMap :=
  peers.foldl
    (fun cands p => p.books.foldl (aggStep targetBooks p.peerId p.score) cands)
    []

theorem mapGet_mapSet (m : CandMap) (k : String) (v : CandEntry) (k' : String) :
    mapGet (mapSet m k v) k' = if k' = k then some v else mapGet m k' := by
  induction m with
  | nil =>
    by_cases h : k' = k
    · simp [mapSet, mapGet, h]
    · have h2 : ¬ (k = k') := fun hh => h hh.symm
      simp [mapSet, mapGet, List.find?, h, h2]
  | cons e rest ih =>
    by_cases he : e.1 = k
    · by_cases h : k' = k
      · subst h
        simp [mapSet, he, mapGet, List.find?]
      · have h2 : ¬ (k = k') := fun hh => h hh.symm
        have he2 : ¬ (e.1 = k') := fun hh => h2 (he.symm.trans hh)
        simp [mapSet, he, mapGet, List.find?, h, h2, he2]
    · by_cases h2 : e.1 = k'
      · have h : ¬ (k' = k) := fun hh => he (h2.trans hh)
        simp [mapSet, he, mapGet, List.find?, h2, h]
      · simp only [mapSet, he, if_false]
        have lhs : mapGet (e :: mapSet rest k v) k' =
            mapGet (mapSet rest k v) k' := by
          simp [mapGet, List.find?, h2]
        have rhs : mapGet (e :: rest) k' = mapGet rest k' := by
          simp [mapGet, List.find?, h2]
        rw [lhs, rhs, ih]

theorem keys_mapSet (m : CandMap) (k : String) (v : CandEntry) :
    (mapSet m k v).map Prod.fst =
      if k ∈ m.map Prod.fst then m.map Prod.fst else m.map Prod.fst ++ [k] := by
  induction m with
  | nil => simp [mapSet]
  | cons e rest ih =>
    by_cases he : e.1 = k
    · simp [mapSet, he]
    · have hke : ¬ (k = e.1) := fun hh => he hh.symm
      by_cases hmem : k ∈ rest.map Prod.fst
      · simp [mapSet, he, ih, hmem, hke]
      · simp [mapSet, he, ih, hmem, hke]

theorem keys_nodup_mapSet (m : CandMap) (k : String) (v : CandEntry)
    (h : (m.map Prod.fst).Nodup) : ((mapSet m k v).map Prod.fst).Nodup := by
  rw [keys_mapSet]
  by_cases hmem : k ∈ m.map Prod.fst
  · simpa [hmem] using h
  · simp only [hmem, if_false]
    exact List.Nodup.append h (List.nodup_singleton k) (by simp [hmem])

theorem keys_nodup_aggStep (T : Finset String) (pid : String) (s : ℚ)
    (cands : CandMap) (b : String) (h : (cands.map Prod.fst).Nodup) :
    ((aggStep T pid s cands b).map Prod.fst).Nodup := by
  unfold aggStep
  by_cases hb : b ∈ T
  · simpa [hb] using h
  · simp only [hb, if_false]
    exact keys_nodup_mapSet _ _ _ h

theorem keys_nodup_foldl_aggStep (T : Finset String) (pid : String) (s : ℚ)
    (books : List String) :
    ∀ cands : CandMap, (cands.map Prod.fst).Nodup →
      ((books.foldl (aggStep T pid s) cands).map Prod.fst).Nodup := by
  induction books with
  | nil => intro cands h; simpa using h
  | cons x xs ih =>
    intro cands h
    rw [List.foldl_cons]
    exact ih _ (keys_nodup_aggStep T pid s cands x h)

theorem keys_nodup_aggregateCandidates (peers : List AggPeer)
    (targetBooks : Finset String) :
    ((aggregateCandidates peers targetBooks).map Prod.fst).Nodup := by
  have main : ∀ cands : CandMap, (cands.map Prod.fst).Nodup →
      ((peers.foldl (fun cands p =>
          p.books.foldl (aggStep targetBooks p.peerId p.score) cands)
        cands).map Prod.fst).Nodup := by
    induction peers with
    | nil => intro cands h; simpa using h
    | cons p ps ih =>
      intro cands h
      rw [List.foldl_cons]
      exact ih _ (keys_nodup_foldl_aggStep targetBooks p.peerId p.score p.books cands h)
  exact main [] (by simp)

theorem mapGet_foldl_aggStep_of_not_mem (T : Finset String) (pid : String)
    (s : ℚ) (books : List String) (b : String) (hb : b ∉ books) :
    ∀ cands : CandMap,
      mapGet (books.foldl (aggStep T pid s) cands) b = mapGet cands b := by
  induction books with
  | nil => intro cands; rfl
  | cons x xs ih =>
    intro cands
    have hbx : b ≠ x := fun hh => hb (hh ▸ List.mem_cons_self x xs)
    have hbxs : b ∉ xs := fun hh => hb (List.mem_cons_of_mem x hh)
    rw [List.foldl_cons, ih hbxs]
    unfold aggStep
    by_cases hT : x ∈ T
    · simp [hT]
    · simp [hT, mapGet_mapSet, hbx]

theorem mapGet_foldl_aggStep (T : Finset String) (pid : String) (s : ℚ)
    (books : List String) (hnd : books.Nodup) (b : String) :
    ∀ cands : CandMap,
      mapGet (books.foldl (aggStep T pid s) cands) b =
        if b ∈ books ∧ b ∉ T then some (bump pid s (mapGet cands b))
        else mapGet cands b := by
  induction books with
  | nil => intro cands; simp
  | cons x xs ih =>
    intro cands
    obtain ⟨hx_nin, hxs⟩ := List.nodup_cons.mp hnd
    rw [List.foldl_cons]
    by_cases hbx : b = x
    · subst hbx
      rw [mapGet_foldl_aggStep_of_not_mem T pid s xs b hx_nin]
      unfold aggStep
      by_cases hT : b ∈ T
      · simp [hT]
      · simp [hT, mapGet_mapSet]
    · rw [ih hxs]
      have h1 : mapGet (aggStep T pid s cands x) b = mapGet cands b := by
        unfold aggStep
        by_cases hT : x ∈ T
        · simp [hT]
        · simp [hT, mapGet_mapSet, hbx]
      rw [h1]
      simp [List.mem_cons, hbx]

theorem mapGet_aggregateCandidates (peers : List AggPeer)
    (targetBooks : Finset String) (hnd : ∀ p ∈ peers, p.books.Nodup)
    (b : String) :
    mapGet (aggregateCandidates peers targetBooks) b =
      if b ∉ targetBooks ∧ ∃ p ∈ peers, b ∈ p.books then
        some (CandEntry.mk
          (((peers.filter (fun p => decide (b ∈ p.books))).map
              (fun p => p.score)).sum)
          ((peers.filter (fun p => decide (b ∈ p.books))).map
              (fun p => p.peerId)))
      else none := by
  induction peers using List.reverseRecOn with
  | nil => simp [aggregateCandidates, mapGet]
  | append_singleton ps p ih =>
    have hp : p.books.Nodup := hnd p (by simp)
    have hnd' : ∀ q ∈ ps, q.books.Nodup := fun q hq => hnd q (by simp [hq])
    have hsplit : aggregateCandidates (ps ++ [p]) targetBooks =
        p.books.foldl (aggStep targetBooks p.peerId p.score)
          (aggregateCandidates ps targetBooks) := by
      simp [aggregateCandidates, List.foldl_append]
    rw [hsplit, mapGet_foldl_aggStep targetBooks p.peerId p.score p.books hp b,
      ih hnd']
    by_cases hT : b ∈ targetBooks
    · simp [hT]
    · by_cases hbp : b ∈ p.books
      · simp only [hbp, hT, not_false_iff, and_true, true_and, if_true]
        by_cases hex : ∃ q ∈ ps, b ∈ q.books
        · have hex' : ∃ q ∈ ps ++ [p], b ∈ q.books := by
            obtain ⟨q, hq, hbq⟩ := hex
            exact ⟨q, by simp [hq], hbq⟩
          simp only [hex, hex', if_true, bump, Option.getD_some]
          simp [List.filter_append, hbp]
        · have hfil : ps.filter (fun q => decide (b ∈ q.books)) = [] := by
            rw [List.filter_eq_nil_iff]
            intro q hq
            simpa using fun hbq => hex ⟨q, hq, hbq⟩
          have hex' : ∃ q ∈ ps ++ [p], b ∈ q.books := ⟨p, by simp, hbp⟩
          simp only [hex, hex', if_true, if_false, bump, Option.getD_none]
          simp [List.filter_append, hfil, hbp]
      · have hiff : (∃ q ∈ ps ++ [p], b ∈ q.books) ↔ ∃ q ∈ ps, b ∈ q.books := by
          constructor
          · rintro ⟨q, hq, hbq⟩
            rcases List.mem_append.mp hq with h | h
            · exact ⟨q, h, hbq⟩
            · simp only [List.mem_singleton] at h
              exact absurd (h ▸ hbq) hbp
          · rintro ⟨q, hq, hbq⟩
            exact ⟨q, by simp [hq], hbq⟩
        rw [if_neg (fun hh => hbp hh.1)]
        by_cases hex : ∃ q ∈ ps, b ∈ q.books
        · rw [if_pos ⟨hT, hex⟩, if_pos ⟨hT, hiff.mpr hex⟩]
          simp [List.filter_append, hbp]
        · rw [if_neg (fun hh => hex hh.2), if_neg (fun hh => hex (hiff.mp hh.2))]

/-- C1: the candidate map built by the aggregator has no duplicate book keys,
and it holds an entry for a book exactly when some peer's (duplicate-free)
book set contains it and the exclusion set does not; that entry's weighted
score is the sum of the scores of exactly the peers whose sets contain the
book, and its contributor list is those peers' identifiers in input order. -/
theorem aggregateCandidates_spec (peers : List AggPeer)
    (targetBooks : Finset String) (hnd : ∀ p ∈ peers, p.books.Nodup) :
    ((aggregateCandidates peers targetBooks).map Prod.fst).Nodup ∧
    ∀ b : String,
      mapGet (aggregateCandidates peers targetBooks) b =
        if b ∉ targetBooks ∧ ∃ p ∈ peers, b ∈ p.books then
          some (CandEntry.mk
            (((peers.filter (fun p => decide (b ∈ p.books))).map
                (fun p => p.score)).sum)
            ((peers.filter (fun p => decide (b ∈ p.books))).map
                (fun p => p.peerId)))
        else none :=
  ⟨keys_nodup_aggregateCandidates peers targetBooks,
   fun b => mapGet_aggregateCandidates peers targetBooks hnd b⟩

/-- Witness for C1 at a concrete peer list and exclusion set. -/
theorem aggregateCandidates_spec_witness :
    (∀ p ∈ [AggPeer.mk "P1" (1/2) ["B1", "B4"]], p.books.Nodup) ∧
    (((aggregateCandidates [AggPeer.mk "P1" (1/2) ["B1", "B4"]]
        {"B1"}).map Prod.fst).Nodup ∧
     ∀ b : String,
       mapGet (aggregateCandidates [AggPeer.mk "P1" (1/2) ["B1", "B4"]]
          {"B1"}) b =
         if b ∉ ({"B1"} : Finset String) ∧
             ∃ p ∈ [AggPeer.mk "P1" (1/2) ["B1", "B4"]], b ∈ p.books then
           some (CandEntry.mk
             ((([AggPeer.mk "P1" (1/2) ["B1", "B4"]].filter
                 (fun p => decide (b ∈ p.books))).map (fun p => p.score)).sum)
             (([AggPeer.mk "P1" (1/2) ["B1", "B4"]].filter
                 (fun p => decide (b ∈ p.books))).map (fun p => p.peerId)))
         else none) :=
  have hnd : ∀ p ∈ [AggPeer.mk "P1" (1/2) ["B1", "B4"]], p.books.Nodup := by
    intro p hp
    simp only [List.mem_singleton] at hp
    subst hp
    decide
  ⟨hnd, aggregateCandidates_spec [AggPeer.mk "P1" (1/2) ["B1", "B4"]] {"B1"} hnd⟩

/-- Digits parser underlying the `parseFloat` model: consumes leading decimal
digits, returning the accumulated value, the number of digits consumed, and
the remaining characters. -/
def parseDigits : List Char → ℕ → ℕ → ℕ × ℕ × List Char
  | [], acc, n => (acc, n, [])
  | c :: cs, acc, n =>
      if c.isDigit then parseDigits cs (acc * 10 + (c.toNat - 48)) (n + 1)
      else (acc, n, c :: cs)

/-- The components of a successfully parsed JS float literal: sign, integer
part, fraction digits with their count, and decimal exponent. -/
structure FloatParse where
  neg : Bool
  ip : ℕ
  fp : ℕ
  fc : ℕ
  exp : ℤ
deriving DecidableEq

/-- Exponent part of the `parseFloat` model: an optional sign and digits; as
in JS, a dangling exponent marker without digits contributes exponent 0
(`parseFloat` takes the longest valid literal). -/
def parseExpPart (cs : List Char) : ℤ :=
  let signAndRest : ℤ × List Char :=
    match cs with
    | '+' :: t => (1, t)
    | '-' :: t => (-1, t)
    | _ => (1, cs)
  let parsed := parseDigits signAndRest.2 0 0
  if parsed.2.1 = 0 then 0 else signAndRest.1 * parsed.1

/-- Model of `parseFloat(dewey)` for the classifier, split into a fully
computable recogniser: leading whitespace, optional sign, digits, optional
fraction, optional exponent.  `none` models `NaN` (no digits at all); the JS
`Infinity` literal is also folded into `none`, which yields the same
classifier output (every comparison fails and no override matches). -/
def parseFloatRaw (s : String) : Option FloatParse :=
  let cs := s.data.dropWhile (fun c => c.isWhitespace)
  let signAndRest : Bool × List Char :=
    match cs with
    | '+' :: t => (false, t)
    | '-' :: t => (true, t)
    | _ => (false, cs)
  let ipPart := parseDigits signAndRest.2 0 0
  let fpPart :=
    match ipPart.2.2 with
    | '.' :: t => parseDigits t 0 0
    | _ => (0, 0, ipPart.2.2)
  if ipPart.2.1 = 0 ∧ fpPart.2.1 = 0 then none
  else
    let e : ℤ :=
      match fpPart.2.2 with
      | 'e' :: t => parseExpPart t
      | 'E' :: t => parseExpPart t
      | _ => 0
    some (FloatParse.mk signAndRest.1 ipPart.1 fpPart.1 fpPart.2.1 e)

/-- The rational value of a parsed float literal. -/
def floatVal (f : FloatParse) : ℚ :=
  (if f.neg then -1 else 1) * ((f.ip : ℚ) + (f.fp : ℚ) / 10 ^ f.fc) * 10 ^ f.exp

/-- Model of `parseFloat(dewey)`: `none` stands for `NaN`. -/
def parseFloatQ (s : String) : Option ℚ := (parseFloatRaw s).map floatVal

/-- Model of `String.prototype.padStart(3, '0')`. -/
def padStart3 (s : String) : String :=
  if s.data.length < 3 then
    String.mk (List.replicate (3 - s.data.length) '0' ++ s.data)
  else s

/-- Model of `String.prototype.slice(0, 3)`. -/
def slice3 (s : String) : String := String.mk (s.data.take 3)

/-- The fixed sub-class override table of `_deweyCategory`. -/
def specificDewey (code : String) : Option String :=
  if code = "005" then some "Technology & Computer Science"
  else if code = "153" then some "Cognitive Psychology"
  else if code = "155" then some "Developmental Psychology"
  else if code = "158" then some "Applied Psychology & Self-Help"
  else if code = "302" then some "Social Influences & Behaviour"
  else if code = "332" then some "Finance & Economics"
  else if code = "658" then some "Business & Management"
  else if code = "745" then some "Design & Decorative Arts"
  else if code = "909" then some "World History"
  else if code = "921" then some "Biography & Memoir"
  else none

/-- JS `num < t` where `num` may be `NaN`: every comparison with `NaN` is
false. -/
def numLtB : Option ℚ → ℚ → Bool
  | none, _ => false
  | some q, t => decide (q < t)

/-- Model of `_deweyCategory(dewey)`: parse the code, build the 3-character
zero-padded integer-part key (which is `"NaN"` for unparsable codes, as
`String(Math.floor(NaN))` is `"NaN"`), consult the override table, then fall
back to the hundred-class ranges on the numeric value. -/
def deweyCategory (dewey : String) : String :=
  let num := parseFloatQ dewey
  let pfx := slice3 (padStart3 (match num with
    | none => "NaN"
    | some q => toString ⌊q⌋))
  match specificDewey pfx with
  | some label => label
  | none =>
    if numLtB num 100 then "General & Computer Science"
    else if numLtB num 200 then "Philosophy & Psychology"
    else if numLtB num 300 then "Religion & Theology"
    else if numLtB num 400 then "Social Sciences"
    else if numLtB num 500 then "Language & Linguistics"
    else if numLtB num 600 then "Pure Science"
    else if numLtB num 700 then "Applied Science & Technology"
    else if numLtB num 800 then "Arts & Recreation"
    else if numLtB num 900 then "Literature"
    else "History, Geography & Biography"

theorem specificDewey_ne_empty (code label : String)
    (h : specificDewey code = some label) : label ≠ "" := by
  unfold specificDewey at h
  split_ifs at h <;>
    first
      | (simp only [Option.some.injEq] at h; subst h; decide)
      | exact absurd h (by simp)

theorem deweyCategory_total : ∀ s : String, deweyCategory s ≠ "" := by
  intro s
  simp only [deweyCategory]
  split
  · next label heq => exact specificDewey_ne_empty _ _ heq
  · split_ifs <;> decide

theorem parseFloatQ_dewey_005 : parseFloatQ "005" = some 5 := by
  rw [parseFloatQ, show parseFloatRaw "005" = some (FloatParse.mk false 5 0 0 0) from by decide,
    Option.map_some']
  simp only [Option.some.injEq, floatVal]
  norm_num

theorem deweyCategory_005 : deweyCategory "005" = "Technology & Computer Science" := by
  simp only [deweyCategory, parseFloatQ_dewey_005]
  rw [show (⌊(5:ℚ)⌋ : ℤ) = 5 from by norm_num]
  decide

theorem parseFloatQ_dewey_005_1 : parseFloatQ "005.1" = some (51/10) := by
  rw [parseFloatQ, show parseFloatRaw "005.1" = some (FloatParse.mk false 5 1 1 0) from by decide,
    Option.map_some']
  simp only [Option.some.injEq, floatVal]
  norm_num

theorem deweyCategory_005_1 : deweyCategory "005.1" = "Technology & Computer Science" := by
  simp only [deweyCategory, parseFloatQ_dewey_005_1]
  rw [show (⌊(51:ℚ)/10⌋ : ℤ) = 5 from by rw [Int.floor_eq_iff] <;> norm_num]
  decide

theorem parseFloatQ_dewey_0051 : parseFloatQ "0051" = some 51 := by
  rw [parseFloatQ, show parseFloatRaw "0051" = some (FloatParse.mk false 51 0 0 0) from by decide,
    Option.map_some']
  simp only [Option.some.injEq, floatVal]
  norm_num

theorem deweyCategory_0051 : deweyCategory "0051" = "General & Computer Science" := by
  simp only [deweyCategory, parseFloatQ_dewey_0051]
  rw [show (⌊(51:ℚ)⌋ : ℤ) = 51 from by norm_num]
  rw [show specificDewey (slice3 (padStart3 (toString (51:ℤ)))) = none from by decide]
  simp only [numLtB]
  norm_num

theorem parseFloatQ_dewey_999 : parseFloatQ "999" = some 999 := by
  rw [parseFloatQ, show parseFloatRaw "999" = some (FloatParse.mk false 999 0 0 0) from by decide,
    Option.map_some']
  simp only [Option.some.injEq, floatVal]
  norm_num

theorem deweyCategory_999 : deweyCategory "999" = "History, Geography & Biography" := by
  simp only [deweyCategory, parseFloatQ_dewey_999]
  rw [show (⌊(999:ℚ)⌋ : ℤ) = 999 from by norm_num]
  rw [show specificDewey (slice3 (padStart3 (toString (999:ℤ)))) = none from by decide]
  simp only [numLtB]
  norm_num

theorem parseFloatQ_dewey_050 : parseFloatQ "050" = some 50 := by
  rw [parseFloatQ, show parseFloatRaw "050" = some (FloatParse.mk false 50 0 0 0) from by decide,
    Option.map_some']
  simp only [Option.some.injEq, floatVal]
  norm_num

theorem deweyCategory_050 : deweyCategory "050" = "General & Computer Science" := by
  simp only [deweyCategory, parseFloatQ_dewey_050]
  rw [show (⌊(50:ℚ)⌋ : ℤ) = 50 from by norm_num]
  rw [show specificDewey (slice3 (padStart3 (toString (50:ℤ)))) = none from by decide]
  simp only [numLtB]
  norm_num

/-- C3 (amended): the classifier is total — every input yields a non-empty
label — and on the quoted codes it returns: "005" and "005.1" the Technology
override; "0051" (which `parseFloat` reads as 51, below 100) the General
range label, not the Technology override; "999" the final History label; and
"050" the General range label. -/
theorem deweyCategory_spec :
    (∀ s : String, deweyCategory s ≠ "") ∧
    deweyCategory "005" = "Technology & Computer Science" ∧
    deweyCategory "005.1" = "Technology & Computer Science" ∧
    deweyCategory "0051" = "General & Computer Science" ∧
    deweyCategory "999" = "History, Geography & Biography" ∧
    deweyCategory "050" = "General & Computer Science" :=
  ⟨deweyCategory_total, deweyCategory_005, deweyCategory_005_1,
   deweyCategory_0051, deweyCategory_999, deweyCategory_050⟩

/-- C3 (counterexample to the claim as stated): "0051" does not map to the
Technology override, because `parseFloat("0051")` is 51 and the derived
3-digit key is "051", which is not in the override table. -/
theorem deweyCategory_0051_not_technology :
    deweyCategory "0051" ≠ "Technology & Computer Science" := by
  rw [deweyCategory_0051]
  decide

/-- C8: a malformed category code parses to NaN, no override or range
comparison matches, and classification falls through to the final
"History, Geography & Biography" label rather than failing. -/
theorem deweyCategory_malformed (s : String) (h : parseFloatQ s = none) :
    deweyCategory s = "History, Geography & Biography" := by
  simp only [deweyCategory, h]
  rw [show specificDewey (slice3 (padStart3 "NaN")) = none from by decide]
  simp [numLtB]

/-- Witness for C8 at the concrete malformed code "abc". -/
theorem deweyCategory_malformed_witness :
    parseFloatQ "abc" = none ∧
    deweyCategory "abc" = "History, Geography & Biography" :=
  have h : parseFloatQ "abc" = none := by
    rw [parseFloatQ, show parseFloatRaw "abc" = none from by decide]
    rfl
  ⟨h, deweyCategory_malformed "abc" h⟩

/-- A row of the `books` table. -/
structure BookRow where
  book_id : String
  title : String
  author : String
  dewey_decimal : String
deriving DecidableEq

/-- A row of the `users` table. -/
structure UserRow where
  user_id : String
  name : String
deriving DecidableEq

/-- A row of the `loans` table. -/
structure LoanRow where
  loan_id : String
  user_id : String
  book_id : String
deriving DecidableEq

/-- The relational store consumed by the service.  Primary keys
(`book_id`, `user_id`, `loan_id`) and foreign keys are schema-level
constraints of the external store; no property proved here needs them. -/
structure DB where
  books : List BookRow
  users : List UserRow
  loans : List LoanRow
deriving DecidableEq

/-- A `RecommendationResult` as produced by the service. -/
structure RecResult where
  book_id : String
  title : String
  author : String
  dewey_decimal : String
  match_score : ℚ
  recommended_by : List String
  fallback : Option String
deriving DecidableEq

/-- The optional `opts` argument of `getRecommendations`. -/
structure RecOpts where
  limit : Option ℕ
  minScore : Option ℚ
deriving DecidableEq

/-- Model of `opts.limit ?? MAX_RESULTS`. -/
def resolveLimit (o : RecOpts) : ℕ := o.limit.getD MAX_RESULTS

/-- Model of `opts.minScore ?? MIN_SIMILARITY`. -/
def resolveMinScore (o : RecOpts) : ℚ := o.minScore.getD MIN_SIMILARITY

/-- Model of `_getBorrowedBooks`: the set of distinct `book_id`s on loans of
the given user. -/
def getBorrowedBooks (db : DB) (uid : String) : Finset String :=
  ((db.loans.filter (fun l => decide (l.user_id = uid))).map
    (fun l => l.book_id)).toFinset

/-- Model of `_getAllUserBooks`: loans of every other user, grouped into a
map from user id to that user's distinct book set; entry order follows the
query's `ORDER BY user_id`. -/
def getAllUserBooks (db : DB) (uid : String) : List (String × Finset String) :=
  let rows := db.loans.filter (fun l => decide (¬ l.user_id = uid))
  let ids := List.insertionSort (· ≤ ·) ((rows.map (fun l => l.user_id)).dedup)
  ids.map (fun u =>
    (u, ((rows.filter (fun l => decide (l.user_id = u))).map
      (fun l => l.book_id)).toFinset))

/-- Number of loans of a given book (`COUNT(l.loan_id)` grouped by book). -/
def loanCountOf (db : DB) (bid : String) : ℕ :=
  (db.loans.filter (fun l => decide (l.book_id = bid))).length

/-- Result rows of the cold-start popularity query: books with at least one
loan (inner join), with their borrow counts, ordered by count descending and
truncated by `LIMIT`.  Ordering among equal counts is not fixed by SQL; the
model resolves it stably on table order. -/
def popularRows (db : DB) (limit : ℕ) : List (BookRow × ℕ) :=
  let grouped := (db.books.map (fun b => (b, loanCountOf db b.book_id))).filter
    (fun p => decide (0 < p.2))
  (List.insertionSort (fun a b : BookRow × ℕ => b.2 ≤ a.2) grouped).take limit

/-- Model of `_coldStartFallback`: popularity rows mapped to results with
zero score, no contributors, and the cold-start tag. -/
def coldStartFallback (db : DB) (limit : ℕ) : List RecResult :=
  (popularRows db limit).map (fun p =>
    RecResult.mk p.1.book_id p.1.title p.1.author p.1.dewey_decimal 0 []
      (some "cold_start_popularity"))

/-- Number of already-read catalogue rows sharing a candidate's category
(the `b1` side of the `_deweyFallback` self-join). -/
def deweyMatchCount (db : DB) (targetBooks : Finset String) (b2 : BookRow) : ℕ :=
  (db.books.filter (fun b1 =>
    decide (b1.book_id ∈ targetBooks ∧ b2.dewey_decimal = b1.dewey_decimal))).length

/-- Result rows of the Dewey-category popularity query: unread books sharing
a category with a read book and having at least one loan (both inner joins),
with `COUNT(l.loan_id)` over the join (the loan count multiplied by the
number of matching read rows), ordered by that count descending, truncated by
`LIMIT`. -/
def deweyRows (db : DB) (targetBooks : Finset String) (limit : ℕ) :
    List (BookRow × ℕ) :=
  let grouped := db.books.filterMap (fun b2 =>
    if b2.book_id ∈ targetBooks then none
    else
      let c := deweyMatchCount db targetBooks b2 * loanCountOf db b2.book_id
      if 0 < c then some (b2, c) else none)
  (List.insertionSort (fun a b : BookRow × ℕ => b.2 ≤ a.2) grouped).take limit

/-- Model of `_deweyFallback`: category-popularity rows mapped to results
with zero score, no contributors, and the Dewey-category tag. -/
def deweyFallback (db : DB) (targetBooks : Finset String) (limit : ℕ) :
    List RecResult :=
  (deweyRows db targetBooks limit).map (fun p =>
    RecResult.mk p.1.book_id p.1.title p.1.author p.1.dewey_decimal 0 []
      (some "dewey_category_popularity"))

/-- Model of the metadata query of `_enrichAndRank`
(`WHERE book_id IN (...)`), in table order. -/
def metaQuery (db : DB) (ids : List String) : List BookRow :=
  db.books.filter (fun b => decide (b.book_id ∈ ids))

/-- Model of `parseFloat(weightedScore.toFixed(4))` for the nonnegative
scores arising here: round to four decimal places, half up. -/
def toFixed4 (q : ℚ) : ℚ := (⌊q * 10000 + 1/2⌋ : ℚ) / 10000

/-- The comparator of `_enrichAndRank`
(`b.match_score - a.match_score || a.title.localeCompare(b.title)`): `a` may
precede `b` when its score is larger, or on equal scores when its title is
not after `b`'s. -/
def recOrder (a b : RecResult) : Prop :=
  b.match_score < a.match_score ∨
    (a.match_score = b.match_score ∧ a.title ≤ b.title)

instance : DecidableRel recOrder := fun a b =>
  inferInstanceAs (Decidable (_ ∨ _))

instance : IsTrans RecResult recOrder := by
  constructor
  intro a b c hab hbc
  rcases hab with h1 | ⟨h1, t1⟩
  · rcases hbc with h2 | ⟨h2, t2⟩
    · exact Or.inl (lt_trans h2 h1)
    · exact Or.inl (h2 ▸ h1)
  · rcases hbc with h2 | ⟨h2, t2⟩
    · exact Or.inl (h1.symm ▸ h2)
    · exact Or.inr ⟨h1.trans h2, le_trans t1 t2⟩

instance : IsTotal RecResult recOrder := by
  constructor
  intro a b
  rcases lt_trichotomy a.match_score b.match_score with h | h | h
  · exact Or.inr (Or.inl h)
  · rcases le_total a.title b.title with ht | ht
    · exact Or.inl (Or.inr ⟨h, ht⟩)
    · exact Or.inr (Or.inr ⟨h.symm, ht⟩)
  · exact Or.inl (Or.inl h)

/-- Model of `_enrichAndRank(candidates, limit)`: merge each returned
metadata row with its candidate entry (every queried row has one, as the
query selects exactly the candidate keys), sort by score descending with
ties broken by title ascending, and truncate to `limit`. -/
def enrichAndRank (candidates : CandMap) (books : List BookRow) (limit : ℕ) :
    List RecResult :=
  if candidates.length = 0 then []
  else
    let results := books.filterMap (fun book =>
      (mapGet candidates book.book_id).map (fun e =>
        RecResult.mk book.book_id book.title book.author book.dewey_decimal
          (toFixed4 e.weightedScore) e.recommendedBy none))
    (List.insertionSort recOrder results).take limit

/-- Model of `getRecommendations(userId, opts)`: resolve the options, then
walk the orchestrator's state machine — empty read-set to the cold-start
fallback, empty peer map to an empty result, no qualifying peers to the
Dewey fallback, and otherwise aggregation over the top `MAX_PEERS` peers
followed by enrichment and ranking.  A peer's book set is iterated in a
canonical (sorted) order; no property proved here depends on it. -/
def getRecommendations (db : DB) (uid : String) (o : RecOpts) :
    List RecResult :=
  let limit := resolveLimit o
  let minScore := resolveMinScore o
  let targetBooks := getBorrowedBooks db uid
  if targetBooks.card = 0 then coldStartFallback db limit
  else
    let allUserBooks := getAllUserBooks db uid
    if allUserBooks.length = 0 then []
    else
      let peers := scorePeers targetBooks allUserBooks minScore
      if peers.length = 0 then deweyFallback db targetBooks limit
      else
        let candidates := aggregateCandidates
          ((peers.take MAX_PEERS).map (fun p =>
            AggPeer.mk p.peerId p.score (p.books.sort (· ≤ ·)))) targetBooks
        enrichAndRank candidates (metaQuery db (candidates.map Prod.fst)) limit

/-- An entry of the Reading DNA breakdown. -/
structure DNAEntry where
  category : String
  dewey : String
  count : ℕ
  percentage : String
deriving DecidableEq

/-- The result shape of `getReadingDNA`. -/
structure ReadingDNA where
  userId : String
  name : String
  totalBooks : ℕ
  breakdown : List DNAEntry
  summary : String
deriving DecidableEq

/-- Model of `Number.prototype.toFixed(2)` for the nonnegative percentages
arising here: round to two decimal places, half up, and render with exactly
two fraction digits. -/
def toFixed2Str (q : ℚ) : String :=
  let n : ℤ := ⌊q * 100 + 1/2⌋
  let ip := n / 100
  let fr := (n % 100).toNat
  toString ip ++ "." ++ (if fr < 10 then "0" else "") ++ toString fr

/-- Result rows of the Reading DNA query: the user's loans joined with catalogue
categories (first matching catalogue row per loan, as `book_id` is the
primary key), grouped by category with counts, ordered by count descending;
no rows when the user is unknown or has no loans. -/
def dnaRows (db : DB) (uid : String) : List (String × String × ℕ) :=
  match db.users.find? (fun u => decide (u.user_id = uid)) with
  | none => []
  | some u =>
    let deweys := db.loans.filterMap (fun l =>
      if l.user_id = uid then
        (db.books.find? (fun b => decide (b.book_id = l.book_id))).map
          (fun b => b.dewey_decimal)
      else none)
    let groups := deweys.dedup.map (fun d =>
      (u.name, d, (deweys.filter (fun d2 => decide (d2 = d))).length))
    List.insertionSort (fun a b : String × String × ℕ => b.2.2 ≤ a.2.2) groups

/-- Model of `getReadingDNA(userId)`: no rows yield the zero-book result;
otherwise the per-category breakdown with formatted percentages and the
comma-joined summary. -/
def getReadingDNA (db : DB) (uid : String) : ReadingDNA :=
  match dnaRows db uid with
  | [] => ReadingDNA.mk uid "Unknown" 0 [] "No reading history found."
  | r :: rest =>
    let rows := r :: rest
    let totalBooks : ℕ := (rows.map (fun x => x.2.2)).sum
    let breakdown := rows.map (fun x =>
      DNAEntry.mk (deweyCategory x.2.1) x.2.1 x.2.2
        (toFixed2Str ((x.2.2 : ℚ) / (totalBooks : ℚ) * 100) ++ "%"))
    let summary := String.intercalate ", "
      (breakdown.map (fun b => b.percentage ++ " " ++ b.category))
    ReadingDNA.mk uid r.1 totalBooks breakdown summary

/-- C9: when the Reading DNA query yields no (category, count) rows — the
reader is unknown or has no loans, two cases this layer does not
distinguish — `getReadingDNA` returns the constant zero-book result with an
empty breakdown instead of failing. -/
theorem getReadingDNA_empty (db : DB) (uid : String)
    (h : dnaRows db uid = []) :
    getReadingDNA db uid =
      ReadingDNA.mk uid "Unknown" 0 [] "No reading history found." := by
  simp only [getReadingDNA, h]

/-- Witness for C9 on the empty store. -/
theorem getReadingDNA_empty_witness :
    dnaRows (DB.mk [] [] []) "U1" = [] ∧
    getReadingDNA (DB.mk [] [] []) "U1" =
      ReadingDNA.mk "U1" "Unknown" 0 [] "No reading history found." :=
  have h : dnaRows (DB.mk [] [] []) "U1" = [] := rfl
  ⟨h, getReadingDNA_empty (DB.mk [] [] []) "U1" h⟩

/-- C10: for a reader with a non-empty read-set, an empty peer map (no other
reader has any loans) makes `getRecommendations` return the empty list; no
fallback fires on this path. -/
theorem getRecommendations_empty_peer_map (db : DB) (uid : String)
    (o : RecOpts) (h1 : (getBorrowedBooks db uid).card ≠ 0)
    (h2 : getAllUserBooks db uid = []) :
    getRecommendations db uid o = [] := by
  simp [getRecommendations, h1, h2]

/-- Witness for C10: one reader with one loan and no other readers. -/
theorem getRecommendations_empty_peer_map_witness :
    ((getBorrowedBooks (DB.mk [BookRow.mk "B1" "T1" "A1" "005"] []
        [LoanRow.mk "L1" "U1" "B1"]) "U1").card ≠ 0) ∧
    getAllUserBooks (DB.mk [BookRow.mk "B1" "T1" "A1" "005"] []
        [LoanRow.mk "L1" "U1" "B1"]) "U1" = [] ∧
    getRecommendations (DB.mk [BookRow.mk "B1" "T1" "A1" "005"] []
        [LoanRow.mk "L1" "U1" "B1"]) "U1" (RecOpts.mk none none) = [] :=
  have h1 : (getBorrowedBooks (DB.mk [BookRow.mk "B1" "T1" "A1" "005"] []
      [LoanRow.mk "L1" "U1" "B1"]) "U1").card ≠ 0 := by decide
  have h2 : getAllUserBooks (DB.mk [BookRow.mk "B1" "T1" "A1" "005"] []
      [LoanRow.mk "L1" "U1" "B1"]) "U1" = [] := by decide
  ⟨h1, h2, getRecommendations_empty_peer_map _ _ (RecOpts.mk none none) h1 h2⟩

/-- C6: for a reader with an empty read-set, every returned entry carries
the cold-start popularity tag, a zero match score, and an empty contributor
list. -/
theorem getRecommendations_coldStart (db : DB) (uid : String) (o : RecOpts)
    (h : getBorrowedBooks db uid = ∅) :
    ∀ r ∈ getRecommendations db uid o,
      r.fallback = some "cold_start_popularity" ∧ r.match_score = 0 ∧
        r.recommended_by = [] := by
  intro r hr
  have hc : (getBorrowedBooks db uid).card = 0 := by simp [h]
  simp only [getRecommendations, hc, if_true, coldStartFallback,
    List.mem_map] at hr
  obtain ⟨p, hp, hpr⟩ := hr
  subst hpr
  exact ⟨rfl, rfl, rfl⟩

/-- Witness for C6: a reader with no loans while another reader has one. -/
theorem getRecommendations_coldStart_witness :
    getBorrowedBooks (DB.mk [BookRow.mk "B1" "T1" "A1" "005"] []
        [LoanRow.mk "L1" "U2" "B1"]) "U1" = ∅ ∧
    (∀ r ∈ getRecommendations (DB.mk [BookRow.mk "B1" "T1" "A1" "005"] []
        [LoanRow.mk "L1" "U2" "B1"]) "U1" (RecOpts.mk none none),
      r.fallback = some "cold_start_popularity" ∧ r.match_score = 0 ∧
        r.recommended_by = []) :=
  have h : getBorrowedBooks (DB.mk [BookRow.mk "B1" "T1" "A1" "005"] []
      [LoanRow.mk "L1" "U2" "B1"]) "U1" = ∅ := by decide
  ⟨h, getRecommendations_coldStart _ _ (RecOpts.mk none none) h⟩

/-- C7: for a reader with a non-empty read-set all of whose peers score below
the threshold, every returned entry carries the Dewey-category popularity tag,
has the category code of some already-read catalogue book, and is not a book
the reader has already read. -/
theorem getRecommendations_deweyFallback (db : DB) (uid : String) (o : RecOpts)
    (h1 : (getBorrowedBooks db uid).card ≠ 0)
    (h2 : ∀ p ∈ getAllUserBooks db uid,
      jaccard (getBorrowedBooks db uid) p.2 < resolveMinScore o) :
    ∀ r ∈ getRecommendations db uid o,
      r.fallback = some "dewey_category_popularity" ∧
      (∃ b ∈ db.books, b.book_id ∈ getBorrowedBooks db uid ∧
        b.dewey_decimal = r.dewey_decimal) ∧
      r.book_id ∉ getBorrowedBooks db uid := by
  intro r hr
  have hpeers : scorePeers (getBorrowedBooks db uid) (getAllUserBooks db uid)
      (resolveMinScore o) = [] := by
    rw [scorePeers]
    have hsc : (getAllUserBooks db uid).filterMap (fun p =>
        let score := jaccard (getBorrowedBooks db uid) p.2
        if resolveMinScore o ≤ score then
          some (PeerScore.mk p.1 score p.2) else none) = [] := by
      rw [List.filterMap_eq_nil_iff]
      intro p hp
      simp only
      rw [if_neg (not_le_of_lt (h2 p hp))]
    rw [hsc]
    rfl
  have hred : getRecommendations db uid o =
      if (getAllUserBooks db uid).length = 0 then []
      else deweyFallback db (getBorrowedBooks db uid) (resolveLimit o) := by
    simp only [getRecommendations, h1, if_false, hpeers, List.length_nil,
      if_true]
  rw [hred] at hr
  by_cases hA : (getAllUserBooks db uid).length = 0
  · rw [if_pos hA] at hr
    exact absurd hr (List.not_mem_nil r)
  · rw [if_neg hA] at hr
    simp only [deweyFallback, List.mem_map] at hr
    obtain ⟨p, hp, hpr⟩ := hr
    subst hpr
    have hpg : p ∈ db.books.filterMap (fun b2 =>
        if b2.book_id ∈ getBorrowedBooks db uid then none
        else
          let c := deweyMatchCount db (getBorrowedBooks db uid) b2 *
            loanCountOf db b2.book_id
          if 0 < c then some (b2, c) else none) := by
      simp only [deweyRows] at hp
      exact (List.perm_insertionSort _ _).mem_iff.mp (List.mem_of_mem_take hp)
    rw [List.mem_filterMap] at hpg
    obtain ⟨b2, hb2, hfb2⟩ := hpg
    by_cases hmem : b2.book_id ∈ getBorrowedBooks db uid
    · rw [if_pos hmem] at hfb2
      exact absurd hfb2 (by simp)
    · rw [if_neg hmem] at hfb2
      simp only at hfb2
      by_cases hc : 0 < deweyMatchCount db (getBorrowedBooks db uid) b2 *
          loanCountOf db b2.book_id
      · rw [if_pos hc] at hfb2
        have hp2 : p = (b2, deweyMatchCount db (getBorrowedBooks db uid) b2 *
            loanCountOf db b2.book_id) := (Option.some.inj hfb2).symm
        subst hp2
        have hdm : 0 < deweyMatchCount db (getBorrowedBooks db uid) b2 := by
          by_contra h0
          have h0' : deweyMatchCount db (getBorrowedBooks db uid) b2 = 0 :=
            Nat.le_zero.mp (Nat.not_lt.mp h0)
          rw [h0', Nat.zero_mul] at hc
          exact lt_irrefl 0 hc
        rw [deweyMatchCount] at hdm
        obtain ⟨b1, hb1⟩ := List.exists_mem_of_length_pos hdm
        obtain ⟨hb1m, hcond⟩ := List.mem_filter.mp hb1
        rw [decide_eq_true_eq] at hcond
        exact ⟨rfl, ⟨b1, hb1m, hcond.1, hcond.2.symm⟩, hmem⟩
      · rw [if_neg hc] at hfb2
        exact absurd hfb2 (by simp)

/-- A two-reader store where the only peer shares no books with the target:
used to exercise the Dewey-category fallback path. -/
def dbDewey : DB :=
  DB.mk [BookRow.mk "B1" "T1" "A1" "005", BookRow.mk "B2" "T2" "A2" "005"] []
    [LoanRow.mk "L1" "U1" "B1", LoanRow.mk "L2" "U2" "B2"]

/-- Witness for C7: reader U1 read B1, the only peer read the disjoint B2,
so the peer scores 0, below the default threshold. -/
theorem getRecommendations_deweyFallback_witness :
    ((getBorrowedBooks dbDewey "U1").card ≠ 0) ∧
    (∀ p ∈ getAllUserBooks dbDewey "U1",
      jaccard (getBorrowedBooks dbDewey "U1") p.2 <
        resolveMinScore (RecOpts.mk none none)) ∧
    (∀ r ∈ getRecommendations dbDewey "U1" (RecOpts.mk none none),
      r.fallback = some "dewey_category_popularity" ∧
      (∃ b ∈ dbDewey.books, b.book_id ∈ getBorrowedBooks dbDewey "U1" ∧
        b.dewey_decimal = r.dewey_decimal) ∧
      r.book_id ∉ getBorrowedBooks dbDewey "U1") := by
  have h1 : (getBorrowedBooks dbDewey "U1").card ≠ 0 := by decide
  have e1 : getBorrowedBooks dbDewey "U1" = {"B1"} := by decide
  have e2 : getAllUserBooks dbDewey "U1" = [("U2", ({"B2"} : Finset String))] := by
    decide
  have h2 : ∀ p ∈ getAllUserBooks dbDewey "U1",
      jaccard (getBorrowedBooks dbDewey "U1") p.2 <
        resolveMinScore (RecOpts.mk none none) := by
    intro p hp
    rw [e2, List.mem_singleton] at hp
    subst hp
    rw [e1, jaccard_eq,
      show (({"B1"} : Finset String) ∩ {"B2"}).card = 0 from by decide,
      show ({"B1"} : Finset String).card = 1 from by decide,
      show ({"B2"} : Finset String).card = 1 from by decide]
    norm_num [resolveMinScore, MIN_SIMILARITY]
  exact ⟨h1, h2,
    getRecommendations_deweyFallback dbDewey "U1" (RecOpts.mk none none) h1 h2⟩

theorem enrichAndRank_sorted_bounded (candidates : CandMap)
    (books : List BookRow) (limit : ℕ) :
    (enrichAndRank candidates books limit).Sorted recOrder ∧
    (enrichAndRank candidates books limit).length ≤ limit := by
  unfold enrichAndRank
  by_cases h : candidates.length = 0
  · simp [h, List.Sorted]
  · simp only [h, if_false]
    constructor
    · exact List.Pairwise.sublist (List.take_sublist _ _)
        (List.sorted_insertionSort recOrder _)
    · rw [List.length_take]
      exact min_le_left _ _

/-- C5 (amended): the recommendation list of the primary (non-fallback) path
is sorted by match score descending with ties broken by title ascending and
is truncated to the requested limit; the limit defaults to `MAX_RESULTS`,
which is 10 (not 5), when the caller supplies none. -/
theorem getRecommendations_ranking (db : DB) (uid : String) (o : RecOpts)
    (h1 : (getBorrowedBooks db uid).card ≠ 0)
    (h2 : (getAllUserBooks db uid).length ≠ 0)
    (h3 : (scorePeers (getBorrowedBooks db uid) (getAllUserBooks db uid)
        (resolveMinScore o)).length ≠ 0) :
    (getRecommendations db uid o).Sorted recOrder ∧
    (getRecommendations db uid o).length ≤ resolveLimit o ∧
    (∀ ms : Option ℚ, resolveLimit (RecOpts.mk none ms) = MAX_RESULTS) ∧
    MAX_RESULTS = 10 := by
  simp only [getRecommendations, h1, h2, h3, if_false]
  exact ⟨(enrichAndRank_sorted_bounded _ _ _).1,
    (enrichAndRank_sorted_bounded _ _ _).2, fun ms => rfl, rfl⟩

/-- C5 (counterexample to the claim as stated): when the caller supplies no
limit the service resolves it to `MAX_RESULTS`, which is 10, not 5. -/
theorem resolveLimit_default_not_five :
    resolveLimit (RecOpts.mk none none) = 10 ∧
    ¬ resolveLimit (RecOpts.mk none none) = 5 := by
  constructor <;> decide

/-- A store whose single peer has read exactly the target's book, driving
the primary recommendation path. -/
def dbPrimary : DB :=
  DB.mk [BookRow.mk "B1" "T1" "A1" "005"] []
    [LoanRow.mk "L1" "U1" "B1", LoanRow.mk "L2" "U2" "B1"]

/-- Witness for C5: a store on which the primary path fires. -/
theorem getRecommendations_ranking_witness :
    ((getBorrowedBooks dbPrimary "U1").card ≠ 0) ∧
    ((getAllUserBooks dbPrimary "U1").length ≠ 0) ∧
    ((scorePeers (getBorrowedBooks dbPrimary "U1")
        (getAllUserBooks dbPrimary "U1")
        (resolveMinScore (RecOpts.mk none none))).length ≠ 0) ∧
    ((getRecommendations dbPrimary "U1" (RecOpts.mk none none)).Sorted
        recOrder ∧
     (getRecommendations dbPrimary "U1" (RecOpts.mk none none)).length ≤
       resolveLimit (RecOpts.mk none none) ∧
     (∀ ms : Option ℚ, resolveLimit (RecOpts.mk none ms) = MAX_RESULTS) ∧
     MAX_RESULTS = 10) := by
  have h1 : (getBorrowedBooks dbPrimary "U1").card ≠ 0 := by decide
  have h2 : (getAllUserBooks dbPrimary "U1").length ≠ 0 := by decide
  have e1 : getBorrowedBooks dbPrimary "U1" = {"B1"} := by decide
  have e2 : getAllUserBooks dbPrimary "U1" =
      [("U2", ({"B1"} : Finset String))] := by decide
  have ej : jaccard {"B1"} {"B1"} = 1 := by
    rw [jaccard_eq,
      show (({"B1"} : Finset String) ∩ {"B1"}).card = 1 from by decide,
      show ({"B1"} : Finset String).card = 1 from by decide]
    norm_num
  have e3 : scorePeers {"B1"} [("U2", ({"B1"} : Finset String))]
      (resolveMinScore (RecOpts.mk none none)) =
      [PeerScore.mk "U2" 1 {"B1"}] := by
    rw [scorePeers]
    simp only [List.filterMap_cons, List.filterMap_nil]
    rw [show resolveMinScore (RecOpts.mk none none) = 1/10 from rfl, ej]
    norm_num [List.insertionSort, List.orderedInsert]
  have h3 : (scorePeers (getBorrowedBooks dbPrimary "U1")
      (getAllUserBooks dbPrimary "U1")
      (resolveMinScore (RecOpts.mk none none))).length ≠ 0 := by
    rw [e1, e2, e3]
    simp
  exact ⟨h1, h2, h3, getRecommendations_ranking dbPrimary "U1"
    (RecOpts.mk none none) h1 h2 h3⟩
